import Mathlib

/-!
Shallow embedding of `src/ubuntu_reblance_disk_usage.py`.

The script scans `/home` for large directories, asks the operator which ones
to move, checks free space, mounts a drive, and for each approved directory
runs rsync (dry run, then real), verifies with `diff -r`, swaps in a symlink,
and finally appends an entry to `/etc/fstab`.

The filesystem is modelled as a tree of entries (regular files with byte
sizes, directories with a readable flag).  External commands (`mount`,
`rsync`, `diff`, `tee`) are modelled by their observable outcome: either the
process was spawned and exited with some code, or spawning it failed (which
in Python raises `OSError` from `subprocess.run`).  Python exceptions that a
function does not catch are modelled with `Except`: `.error` marks an
uncaught exception propagating to the caller.
-/

namespace Rebalance

/-- A node of the filesystem tree under the scan root.  A directory carries a
`readable` flag: `false` means listing it raises `OSError`/`PermissionError`. -/
inductive Entry where
  | file (name : String) (size : Nat)
  | dir (name : String) (readable : Bool) (children : List Entry)

/-- Total byte size of the regular files in a list of entries, recursively
(the quantity `sum(f.stat().st_size for f in Path(d).rglob('*') if f.is_file())`
ranges over). -/
def listBytes : List Entry → Nat
  | [] => 0
  | .file _ sz :: cs => sz + listBytes cs
  | .dir _ _ cc :: cs => listBytes cc + listBytes cs

/-- Total byte size of the regular files reachable beneath an entry. -/
def entryBytes : Entry → Nat
  | .file _ sz => sz
  | .dir _ _ cs => listBytes cs

/-- `true` when traversing the subtree raises `OSError` (some directory in it,
itself included, is unreadable). -/
def listBad : List Entry → Bool
  | [] => false
  | .file _ _ :: cs => listBad cs
  | .dir _ r cc :: cs => !r || listBad cc || listBad cs

/-- `true` when `Path(d).rglob('*')`-style traversal of this entry raises. -/
def entryBad : Entry → Bool
  | .file _ _ => false
  | .dir _ r cs => !r || listBad cs

/-- `calculate_dir_size`: total size of the directory in KB
(`// 1024` of the byte total), `none` when an `OSError` was caught
(the function logs and returns `None`). -/
def calculate_dir_size (d : Entry) : Option Nat :=
  if entryBad d then none else some (entryBytes d / 1024)

/-- All directory nodes strictly inside a list of entries (each directory,
followed by its own nested directories, in order). -/
def descList : List Entry → List Entry
  | [] => []
  | .file _ _ :: cs => descList cs
  | .dir n r cc :: cs => .dir n r cc :: (descList cc ++ descList cs)

/-- All directory nodes strictly inside an entry ("B is nested in A"). -/
def descendants : Entry → List Entry
  | .file _ _ => []
  | .dir _ _ cs => descList cs

/-- The directories of one level, paired with their paths
(`os.path.join(root, dir)` for each `dir` in `dirs`). -/
def levelDirs (p : String) : List Entry → List (String × Entry)
  | [] => []
  | .file _ _ :: cs => levelDirs p cs
  | .dir n r cc :: cs => (p ++ "/" ++ n, .dir n r cc) :: levelDirs p cs

mutual

/-- The recursive part of `os.walk`: after yielding one level, walk each
child directory in order. -/
def walkSubs (p : String) : List Entry → List (String × Entry)
  | [] => []
  | .file _ _ :: cs => walkSubs p cs
  | .dir n r cc :: cs => walkEntry (p ++ "/" ++ n) (.dir n r cc) ++ walkSubs p cs

/-- `os.walk(p)` restricted to what `find_large_directories` consumes: every
directory below `p` paired with its path, in top-down walk order.  An
unreadable directory yields nothing (`os.walk` with `onerror=None` silently
skips a directory it cannot list), though it still appears in its parent's
listing. -/
def walkEntry (p : String) : Entry → List (String × Entry)
  | .file _ _ => []
  | .dir _ r cs => if r then levelDirs p cs ++ walkSubs p cs else []

end

/-- Runs `calculate_dir_size` on each walked directory.  `none` models the
`TypeError` the loop body raises when `calculate_dir_size` returns `None`
(`None / 1024` in `size_mb = calculate_dir_size(path) / 1024`). -/
def collectSizes : List (String × Entry) → Option (List (String × Nat))
  | [] => some []
  | pe :: rest =>
    match calculate_dir_size pe.2 with
    | none => none
    | some kb => (collectSizes rest).map (fun l => (pe.1, kb) :: l)

/-- The descending-by-size order of the final
`sorted(large_dirs, key=lambda x: x[1], reverse=True)`. -/
def sizeDesc (a b : String × Nat) : Prop := b.2 ≤ a.2

instance : DecidableRel sizeDesc := fun a b => Nat.decLe b.2 a.2

instance : IsTotal (String × Nat) sizeDesc := ⟨fun a b => Nat.le_total b.2 a.2⟩

instance : IsTrans (String × Nat) sizeDesc := ⟨fun _ _ _ h1 h2 => Nat.le_trans h2 h1⟩

/-- `find_large_directories`: walk `/home`, keep directories whose size
exceeds the threshold, sort descending by size.  Sizes are kept in KB; the
script stores `size_mb = size_kb / 1024` (exact float) and tests
`size_mb > min_size_mb`, which for naturals is `size_kb > 1024 * min_size_mb`,
and sorting by `size_mb` orders exactly as sorting by `size_kb`.  Python's
`sorted(key=..., reverse=True)` is a stable descending sort, matched here by
`insertionSort` with `sizeDesc`.  `none` models the uncaught `TypeError` when
some directory's size computation failed. -/
def find_large_directories (root : Entry) (minSizeMb : Nat) : Option (List (String × Nat)) :=
  (collectSizes (walkEntry "/home" root)).map
    (fun l => List.insertionSort sizeDesc
        (l.filter (fun x => decide (1024 * minSizeMb < x.2))))

/-- ASCII lowercasing of one character (all `response.lower()` must
distinguish is `y`/`Y`/`n`/`N` from everything else). -/
def lowerAscii (c : Char) : Char :=
  if 'A' ≤ c ∧ c ≤ 'Z' then Char.ofNat (c.toNat + 32) else c

/-- `response.lower()` on a console line. -/
def strLower (s : String) : String := ⟨s.data.map lowerAscii⟩

/-- The `while True` prompt loop of `prompt_directory_move`: consume console
lines until one lowercases to `y` or `n`; `none` when the input stream is
exhausted (an `EOFError` from `input()`, which nothing catches). -/
def readDecision : List String → Option (Bool × List String)
  | [] => none
  | r :: rs =>
    if strLower r = "y" then some (true, rs)
    else if strLower r = "n" then some (false, rs)
    else readDecision rs

/-- The `for` loop of `prompt_directory_move` over the candidates it was
given: returns the candidates shown so far (first component, meaningful even
when the run dies) and, when the input stream sufficed, the approved paths in
order. -/
def promptLoop : List (String × Nat) → List String → List String × Option (List String)
  | [], _ => ([], some [])
  | (path, _) :: rest, rs =>
    match readDecision rs with
    | none => ([path], none)
    | some (b, rs') =>
      let (shown, res) := promptLoop rest rs'
      (path :: shown, res.map (fun ap => if b then path :: ap else ap))

/-- `prompt_directory_move`: iterate `dir_info[:limit]`, ask for each, return
the approved paths.  First component: the candidates actually shown. -/
def prompt_directory_move (dirInfo : List (String × Nat)) (limit : Nat)
    (responses : List String) : List String × Option (List String) :=
  promptLoop (dirInfo.take limit) responses

/-- Outcome of one `subprocess.run(...)` call: the process ran and exited
with `code`, or spawning it failed (Python raises `OSError`, e.g.
`FileNotFoundError`, which `except subprocess.CalledProcessError` does not
catch). -/
inductive ProcResult where
  | exit (code : Nat)
  | spawnFail
deriving DecidableEq, Repr

/-- An external action the script performed, in order. -/
inductive Event where
  | usageCheck (path : String)
  | mkdirp (path : String)
  | mountCmd (drive mountPoint : String)
  | rsyncDry (src dst : String)
  | rsyncReal (src dst : String)
  | diffRun (src dst : String)
  | linkSwap (target link : String)
  | fstabAppend (entry : List Char)
deriving DecidableEq, Repr

/-- The environment a run executes against: disk usage answers, and the
outcome of each external command the script may issue. -/
structure Sys where
  /-- `shutil.disk_usage('/')` in bytes (total, used, free); `none` = `OSError`. -/
  rootUsage : Option (Nat × Nat × Nat)
  /-- whether `Path(mount_point).mkdir(parents=True, exist_ok=True)` succeeds. -/
  mkdirOk : Bool
  /-- outcome of `sudo mount <drive> <mount_point>`. -/
  mountRes : ProcResult
  /-- outcome of the dry-run rsync for a given source directory. -/
  dryRes : String → ProcResult
  /-- outcome of the real (`--delete`) rsync for a given source directory. -/
  realRes : String → ProcResult
  /-- outcome of `sudo diff -r` for a given source directory. -/
  diffRes : String → ProcResult
  /-- whether `create_symlink` succeeds for a given source directory
  (it catches both `OSError` and `CalledProcessError`, so it never raises). -/
  symlinkOk : String → Bool
  /-- current text of `/etc/fstab`. -/
  fstabContent : List Char
  /-- outcome of `sudo tee -a /etc/fstab`. -/
  teeRes : ProcResult

/-- `check_disk_usage`: divides the byte counts by 1024, `None` on `OSError`.
The returned triple is (total, used, available) in KB. -/
def check_disk_usage (usage : Option (Nat × Nat × Nat)) : Option (Nat × Nat × Nat) :=
  usage.map (fun u => (u.1 / 1024, u.2.1 / 1024, u.2.2 / 1024))

/-- `verify_mount_point`: create the mount point directory, report success. -/
def verify_mount_point (mkdirOk : Bool) (mp : String) : List Event × Bool :=
  ([.mkdirp mp], mkdirOk)

/-- `mount_drive`: ensure the mount point exists, then `sudo mount`.
`check=True` turns a nonzero exit into `CalledProcessError`, which is caught
and logged; a spawn failure is an uncaught `OSError`. -/
def mount_drive (mkdirOk : Bool) (mountRes : ProcResult) (drive mp : String) :
    List Event × Except String Bool :=
  let (ev, ok) := verify_mount_point mkdirOk mp
  if ok then
    match mountRes with
    | .exit 0 => (ev ++ [.mountCmd drive mp], .ok true)
    | .exit (_ + 1) => (ev ++ [.mountCmd drive mp], .ok false)
    | .spawnFail => (ev, .error "OSError")
  else (ev, .ok false)

/-- `transfer_directory`: rsync with `--dry-run` first; only if it exits 0 is
the real `--delete` rsync run.  Nonzero exits raise `CalledProcessError`
(caught, `False`); a spawn failure raises `OSError` (uncaught). -/
def transfer_directory (dry real : ProcResult) (src dst : String) :
    List Event × Except String Bool :=
  match dry with
  | .spawnFail => ([], .error "OSError")
  | .exit (_ + 1) => ([.rsyncDry src dst], .ok false)
  | .exit 0 =>
    match real with
    | .spawnFail => ([.rsyncDry src dst], .error "OSError")
    | .exit (_ + 1) => ([.rsyncDry src dst, .rsyncReal src dst], .ok false)
    | .exit 0 => ([.rsyncDry src dst, .rsyncReal src dst], .ok true)

/-- `verify_transfer`: run `sudo diff -r src dst` (no `check=True`, so a
completed process never raises; the function returns `returncode == 0`).
Its `except subprocess.CalledProcessError` clause is unreachable, so a spawn
failure propagates as an uncaught `OSError`. -/
def verify_transfer (diff : ProcResult) (src dst : String) :
    List Event × Except String Bool :=
  match diff with
  | .exit c => ([.diffRun src dst], .ok (decide (c = 0)))
  | .spawnFail => ([], .error "OSError")

/-- `Path(source_dir).name`: the last path component (the text after the
final slash). -/
def baseName (s : String) : String :=
  ⟨(s.data.reverse.takeWhile (fun c => c != '/')).reverse⟩

/-- The fstab line `update_fstab` builds:
`f"{drive} {mount_point} ext4 defaults 0 2\n"`. -/
def fstabEntry (drive mp : String) : List Char :=
  (drive ++ " " ++ mp ++ " ext4 defaults 0 2\n").data

/-- `pat` occurs as a prefix of `s` (Python's `str.startswith`, used to build
the substring test below). -/
def containsSub (pat : List Char) : List Char → Bool
  | [] => pat.isPrefixOf []
  | c :: cs => pat.isPrefixOf (c :: cs) || containsSub pat cs

/-- Number of positions of `s` at which `pat` occurs (`fstab_entry in content`
is `containsSub`, i.e. this count being positive). -/
def countOccs (pat : List Char) : List Char → Nat
  | [] => if pat.isPrefixOf [] then 1 else 0
  | c :: cs => (if pat.isPrefixOf (c :: cs) then 1 else 0) + countOccs pat cs

/-- `update_fstab`: read `/etc/fstab`; when the entry text is not a substring
of the content, append it with `sudo tee -a`.  Everything is inside
`except Exception`, so no failure escapes; returns (events, new content,
reported success). -/
def update_fstab (drive mp : String) (tee : ProcResult) (content : List Char) :
    List Event × List Char × Bool :=
  let e := fstabEntry drive mp
  if containsSub e content then ([], content, true)
  else
    match tee with
    | .exit 0 => ([.fstabAppend e], content ++ e, true)
    | .exit (_ + 1) => ([.fstabAppend e], content, false)
    | .spawnFail => ([], content, false)

/-- The body of the per-directory loop in `main`: transfer, then verify, then
`create_symlink(destination, source_dir)`.  The boolean is whether the
directory was processed successfully; `.error` is an uncaught exception. -/
def processOne (s : Sys) (mp src : String) : List Event × Except String Bool :=
  let dst := mp ++ "/" ++ baseName src
  let (tev, tres) := transfer_directory (s.dryRes src) (s.realRes src) src dst
  match tres with
  | .error m => (tev, .error m)
  | .ok false => (tev, .ok false)
  | .ok true =>
    let (vev, vres) := verify_transfer (s.diffRes src) src dst
    match vres with
    | .error m => (tev ++ vev, .error m)
    | .ok false => (tev ++ vev, .ok false)
    | .ok true => (tev ++ vev ++ [.linkSwap dst src], .ok (s.symlinkOk src))

/-- `for source_dir in selected_dirs: ...` — each directory is processed in
turn; an uncaught exception from the body aborts the whole loop. -/
def processLoop (s : Sys) (mp : String) :
    List String → List Event × Except String (List (String × Bool))
  | [] => ([], .ok [])
  | d :: ds =>
    let (ev, res) := processOne s mp d
    match res with
    | .error m => (ev, .error m)
    | .ok b =>
      let (evs, rest) := processLoop s mp ds
      (ev ++ evs, rest.map (fun l => (d, b) :: l))

/-- How a run of `main` past the selection phase ends. -/
inductive MainOutcome where
  | noUsage
  | insufficient
  | mountFailed
  | crashed (msg : String)
  | finished (results : List (String × Bool)) (fstabOk : Bool)
deriving DecidableEq, Repr

/-- `main` from the `mount_drive` call onward — the part reached only when
the capacity check passes: mount, process each approved directory, update
fstab. -/
def mainMount (s : Sys) (drive mp : String) (selected : List (String × Entry)) :
    List Event × MainOutcome :=
  let (mev, mres) := mount_drive s.mkdirOk s.mountRes drive mp
  match mres with
  | .error m => (mev, .crashed m)
  | .ok false => (mev, .mountFailed)
  | .ok true =>
    let (lev, lres) := processLoop s mp (selected.map Prod.fst)
    match lres with
    | .error m => (mev ++ lev, .crashed m)
    | .ok results =>
      let (fev, _newContent, fOk) := update_fstab drive mp s.teeRes s.fstabContent
      (mev ++ lev ++ fev, .finished results fOk)

/-- `main` from the space check onward (`selected` holds the approved paths
with their subtrees): query `/` usage, sum the selected sizes, abort when the
requirement exceeds the available KB, otherwise run `mainMount`. -/
def mainTail (s : Sys) (drive mp : String) (selected : List (String × Entry)) :
    List Event × MainOutcome :=
  match check_disk_usage s.rootUsage with
  | none => ([.usageCheck "/"], .noUsage)
  | some (_t, _u, avail) =>
    match collectSizes selected with
    | none => ([.usageCheck "/"], .crashed "TypeError")
    | some sized =>
      if avail < (sized.map Prod.snd).sum then ([.usageCheck "/"], .insufficient)
      else (.usageCheck "/" :: (mainMount s drive mp selected).1,
        (mainMount s drive mp selected).2)

/-! ### Scanner lemmas -/

/-- When no size computation failed, `collectSizes` pairs each walked path
with its directory's size in KB. -/
theorem collectSizes_eq_map (l : List (String × Entry)) :
    ∀ out, collectSizes l = some out →
      out = l.map (fun pe => (pe.1, entryBytes pe.2 / 1024)) := by
  induction l with
  | nil =>
    intro out h
    simp only [collectSizes, Option.some.injEq] at h
    simp [h.symm]
  | cons pe rest ih =>
    intro out h
    rw [collectSizes] at h
    cases hc : calculate_dir_size pe.2 with
    | none => rw [hc] at h; cases h
    | some kb =>
      rw [hc] at h
      cases hr : collectSizes rest with
      | none => rw [hr] at h; cases h
      | some l' =>
        rw [hr] at h
        simp only [Option.map_some', Option.some.injEq] at h
        have hkb : kb = entryBytes pe.2 / 1024 := by
          unfold calculate_dir_size at hc
          split at hc
          · cases hc
          · exact (Option.some.injEq _ _ ▸ hc).symm
        subst hkb
        rw [← h, List.map_cons, ih l' hr]

/-! ### Claim C2 -/

/-- A tree with two equally sized large directories under the scan root. -/
def tieTree : Entry :=
  .dir "home" true [.dir "a" true [.file "f" 2048], .dir "b" true [.file "g" 2048]]

/-- **C2, counterexample**: on a tree whose directories `/home/a` and
`/home/b` both hold 2048 bytes, the scanner (threshold 0 MB) returns both
with size 2 KB, and that output is *not* sorted strictly descending by size:
the two adjacent sizes are equal. -/
theorem find_large_directories_tie_not_strict :
    find_large_directories tieTree 0 = some [("/home/a", 2), ("/home/b", 2)] ∧
    ¬ ([("/home/a", 2), ("/home/b", 2)] : List (String × Nat)).Pairwise
        (fun a b => b.2 < a.2) := by
  constructor
  · simp [find_large_directories, tieTree, walkEntry, walkSubs, levelDirs, collectSizes,
      calculate_dir_size, entryBad, listBad, entryBytes, listBytes, sizeDesc]
  · decide

/-- **C2, amended**: whenever the scan completes (no size computation
failed), the scanner returns exactly the walked directories whose computed
size strictly exceeds the threshold — `size_kb > 1024 * min_size_mb`, i.e. a
directory with size at or below the threshold never appears — as a
permutation, and the output is sorted in non-increasing (descending, ties
allowed) order by size. -/
theorem find_large_directories_spec (root : Entry) (m : Nat) (out : List (String × Nat))
    (h : find_large_directories root m = some out) :
    out.Perm (((walkEntry "/home" root).map (fun pe => (pe.1, entryBytes pe.2 / 1024))).filter
        (fun x => decide (1024 * m < x.2))) ∧
    out.Pairwise sizeDesc ∧
    ∀ x ∈ out, 1024 * m < x.2 := by
  unfold find_large_directories at h
  cases hc : collectSizes (walkEntry "/home" root) with
  | none => rw [hc] at h; cases h
  | some l =>
    rw [hc] at h
    simp only [Option.map_some', Option.some.injEq] at h
    have hl := collectSizes_eq_map _ _ hc
    subst hl
    subst h
    refine ⟨List.perm_insertionSort _ _, List.sorted_insertionSort _ _, ?_⟩
    intro x hx
    have hx' := (List.perm_insertionSort sizeDesc _).mem_iff.mp hx
    have := (List.mem_filter.mp hx').2
    exact of_decide_eq_true this

/-- **C2, witness**: the amended theorem applied to `tieTree` with
threshold 0. -/
theorem find_large_directories_spec_witness :
    ([("/home/a", 2), ("/home/b", 2)] : List (String × Nat)).Pairwise sizeDesc := by
  have h : find_large_directories tieTree 0 = some [("/home/a", 2), ("/home/b", 2)] := by
    simp [find_large_directories, tieTree, walkEntry, walkSubs, levelDirs, collectSizes,
      calculate_dir_size, entryBad, listBad, entryBytes, listBytes, sizeDesc]
  exact (find_large_directories_spec tieTree 0 _ h).2.1

/-! ### Claim C3 -/

/-- A tree in which `/home/locked` cannot be read, with readable siblings. -/
def badTree : Entry :=
  .dir "home" true [.dir "a" true [.file "f" 2048], .dir "locked" false [],
    .dir "b" true [.file "g" 4096]]

/-- `badTree` with the lock removed: the same tree, fully readable. -/
def goodTree : Entry :=
  .dir "home" true [.dir "a" true [.file "f" 2048], .dir "locked" true [],
    .dir "b" true [.file "g" 4096]]

/-- **C3**: an unreadable directory is *fatal* to the scanner, contradicting
the claim.  `calculate_dir_size` catches the `OSError` and returns `None`,
but `find_large_directories` then evaluates `None / 1024` — a `TypeError`
that aborts the whole scan (modelled by `none`), so the readable siblings
`/home/a` and `/home/b` are never reported; with the same tree readable the
scan returns them. -/
theorem scanner_fatal_on_unreadable :
    calculate_dir_size (Entry.dir "locked" false []) = none ∧
    find_large_directories badTree 0 = none ∧
    find_large_directories goodTree 0 = some [("/home/b", 4), ("/home/a", 2)] := by
  refine ⟨by simp [calculate_dir_size, entryBad, listBad], ?_, ?_⟩
  · simp [find_large_directories, badTree, walkEntry, walkSubs, levelDirs, collectSizes,
      calculate_dir_size, entryBad, listBad, entryBytes, listBytes, sizeDesc]
  · simp [find_large_directories, goodTree, walkEntry, walkSubs, levelDirs, collectSizes,
      calculate_dir_size, entryBad, listBad, entryBytes, listBytes, sizeDesc,
      List.insertionSort, List.orderedInsert]

/-! ### Nesting and size lemmas -/

/-- A directory nested anywhere inside a list of entries weighs no more than
the whole list: its files are a subcollection of the list's files. -/
theorem mem_descList_le : ∀ (cs : List Entry) (B : Entry),
    B ∈ descList cs → entryBytes B ≤ listBytes cs
  | [], B, h => by simp [descList] at h
  | .file n sz :: cs, B, h => by
    simp only [descList] at h
    have := mem_descList_le cs B h
    simp only [listBytes]
    omega
  | .dir n r cc :: cs, B, h => by
    simp only [descList] at h
    simp only [listBytes]
    rcases List.mem_cons.mp h with rfl | h2
    · simp only [entryBytes]; omega
    · rcases List.mem_append.mp h2 with h3 | h3
      · have := mem_descList_le cc B h3; omega
      · have := mem_descList_le cs B h3; omega

/-- If traversing a list of entries raises no `OSError`, neither does
traversing any directory nested inside it. -/
theorem mem_descList_bad : ∀ (cs : List Entry) (B : Entry),
    B ∈ descList cs → listBad cs = false → entryBad B = false
  | [], B, h, _ => by simp [descList] at h
  | .file n sz :: cs, B, h, hb => by
    simp only [descList] at h
    simp only [listBad] at hb
    exact mem_descList_bad cs B h hb
  | .dir n r cc :: cs, B, h, hb => by
    simp only [descList] at h
    simp only [listBad, Bool.or_eq_false_iff] at hb
    obtain ⟨⟨hr, hcc⟩, hcs⟩ := hb
    rcases List.mem_cons.mp h with rfl | h2
    · simp [entryBad, hr, hcc]
    · rcases List.mem_append.mp h2 with h3 | h3
      · exact mem_descList_bad cc B h3 hcc
      · exact mem_descList_bad cs B h3 hcs

/-! ### Claim C9 -/

/-- **C9**: if directory `B` is nested inside directory `A` and `A`'s size
computation succeeds (with value `a` KB), then `B`'s size computation also
succeeds with some `b ≤ a`: `A`'s byte total ranges over every regular file
reachable beneath `A`, which includes all of `B`'s files, and `x ↦ x / 1024`
is monotone. -/
theorem nested_dir_size_le (A B : Entry) (h : B ∈ descendants A) (a : Nat)
    (hA : calculate_dir_size A = some a) :
    ∃ b, calculate_dir_size B = some b ∧ b ≤ a := by
  cases A with
  | file n sz => simp [descendants] at h
  | dir n r cs =>
    unfold calculate_dir_size at hA
    split at hA
    · cases hA
    · rename_i hbad
      have hbad' : entryBad (.dir n r cs) = false := by
        simpa using hbad
      simp only [entryBad, Bool.or_eq_false_iff] at hbad'
      have hmem : B ∈ descList cs := by simpa [descendants] using h
      have hBbad : entryBad B = false := mem_descList_bad cs B hmem hbad'.2
      have hle : entryBytes B ≤ entryBytes (.dir n r cs) := by
        simpa only [entryBytes] using mem_descList_le cs B hmem
      obtain rfl : entryBytes (.dir n r cs) / 1024 = a := by
        simpa using hA
      exact ⟨entryBytes B / 1024, by simp [calculate_dir_size, hBbad],
        Nat.div_le_div_right hle⟩

/-- A two-level tree: 4096 bytes sit in `B`, nested inside `A`. -/
def nestParent : Entry := .dir "A" true [.dir "B" true [.file "f" 4096]]

/-- The nested directory of `nestParent`. -/
def nestChild : Entry := .dir "B" true [.file "f" 4096]

/-- **C9, witness**: the nesting theorem applied to the concrete two-level
tree, whose computed sizes are both 4 KB. -/
theorem nested_dir_size_le_witness :
    ∃ b, calculate_dir_size nestChild = some b ∧ b ≤ 4 :=
  nested_dir_size_le nestParent nestChild
    (by simp [nestParent, nestChild, descendants, descList]) 4
    (by
      have h1 : entryBad nestParent = false := by simp [nestParent, entryBad, listBad]
      have h2 : entryBytes nestParent = 4096 := by simp [nestParent, entryBytes, listBytes]
      show (if entryBad nestParent = true then none
          else some (entryBytes nestParent / 1024)) = some 4
      rw [h1, h2]
      norm_num)

/-! ### Selector lemmas -/

/-- The candidates the prompt loop shows form a prefix (in order) of the
candidate list it was given. -/
theorem promptLoop_shown (l : List (String × Nat)) :
    ∀ rs, (promptLoop l rs).1 <+: l.map Prod.fst := by
  induction l with
  | nil => intro rs; simp [promptLoop]
  | cons pe rest ih =>
    intro rs
    obtain ⟨path, sz⟩ := pe
    cases hr : readDecision rs with
    | none => simp [promptLoop, hr]
    | some brs =>
      obtain ⟨b, rs'⟩ := brs
      obtain ⟨t, ht⟩ := ih rs'
      refine ⟨t, ?_⟩
      simp only [promptLoop, hr, List.map_cons, List.cons_append]
      rw [← ht]

/-- The approved paths are an ordered sublist of the candidates shown. -/
theorem promptLoop_approved (l : List (String × Nat)) :
    ∀ rs ap, (promptLoop l rs).2 = some ap → ap.Sublist (promptLoop l rs).1 := by
  induction l with
  | nil =>
    intro rs ap h
    simp only [promptLoop, Option.some.injEq] at h
    simp [promptLoop, ← h]
  | cons pe rest ih =>
    intro rs ap h
    obtain ⟨path, sz⟩ := pe
    cases hr : readDecision rs with
    | none => simp [promptLoop, hr] at h
    | some brs =>
      obtain ⟨b, rs'⟩ := brs
      simp only [promptLoop, hr] at h ⊢
      cases hres : (promptLoop rest rs').2 with
      | none => rw [hres] at h; cases h
      | some ap' =>
        rw [hres] at h
        simp only [Option.map_some', Option.some.injEq] at h
        have hsub := ih rs' ap' hres
        subst h
        cases b with
        | true => simpa using hsub.cons₂ path
        | false => simpa using hsub.cons path

/-! ### Claim C7 -/

/-- **C7**: the selector shows only a prefix of the first `limit` candidates,
in ranked order; when the console input suffices, the approved paths are an
ordered sublist of the shown candidates (hence of the first `limit`
candidates), and at most `limit` paths are approved. -/
theorem prompt_directory_move_spec (dirInfo : List (String × Nat)) (limit : Nat)
    (rs : List String) (approved : List String)
    (h : (prompt_directory_move dirInfo limit rs).2 = some approved) :
    (prompt_directory_move dirInfo limit rs).1 <+: (dirInfo.take limit).map Prod.fst ∧
    approved.Sublist (prompt_directory_move dirInfo limit rs).1 ∧
    approved.Sublist ((dirInfo.take limit).map Prod.fst) ∧
    approved.length ≤ limit := by
  unfold prompt_directory_move at h ⊢
  have h1 := promptLoop_shown (dirInfo.take limit) rs
  have h2 := promptLoop_approved (dirInfo.take limit) rs approved h
  have h3 := h2.trans h1.sublist
  refine ⟨h1, h2, h3, ?_⟩
  calc approved.length ≤ ((dirInfo.take limit).map Prod.fst).length := h3.length_le
    _ = (dirInfo.take limit).length := List.length_map _ _
    _ ≤ limit := List.length_take_le _ _

/-- **C7, witness**: three ranked candidates, limit 2, console answers
`maybe` (re-prompted), `y`, `n`: the selector shows the first two, approves
one path. -/
theorem prompt_directory_move_spec_witness : (["/home/x"] : List String).length ≤ 2 :=
  (prompt_directory_move_spec [("/home/x", 2000), ("/home/y", 1500), ("/home/z", 1200)] 2
    ["maybe", "y", "n"] ["/home/x"]
    (by simp only [prompt_directory_move, promptLoop, readDecision]; decide)).2.2.2

/-! ### Claim C4 -/

/-- **C4**: the real (`--delete`) rsync is run only when the dry run exited 0,
and any dry-run failure (nonzero exit or spawn failure) makes the transfer
fail — it does not return success — with the real rsync never run. -/
theorem transfer_dry_run_gate (dry real : ProcResult) (src dst : String) :
    (Event.rsyncReal src dst ∈ (transfer_directory dry real src dst).1 →
      dry = .exit 0) ∧
    (dry ≠ .exit 0 →
      (transfer_directory dry real src dst).2 ≠ .ok true ∧
      Event.rsyncReal src dst ∉ (transfer_directory dry real src dst).1) := by
  cases dry with
  | spawnFail => simp [transfer_directory]
  | exit c =>
    cases c with
    | zero =>
      cases real with
      | spawnFail => simp [transfer_directory]
      | exit c2 => cases c2 <;> simp [transfer_directory]
    | succ n => simp [transfer_directory]

/-- **C4, witness**: a dry run exiting 23 — no real rsync, no success. -/
theorem transfer_dry_run_gate_witness :
    (transfer_directory (.exit 23) (.exit 0) "/home/a" "/mnt/temp/a").2 ≠ .ok true ∧
    Event.rsyncReal "/home/a" "/mnt/temp/a" ∉
      (transfer_directory (.exit 23) (.exit 0) "/home/a" "/mnt/temp/a").1 :=
  (transfer_dry_run_gate (.exit 23) (.exit 0) "/home/a" "/mnt/temp/a").2 (by decide)

/-! ### Claim C5 -/

/-- **C5**: when the comparison process completes, the verifier returns
true exactly on exit code 0 — but when the comparison cannot be run at all,
the code does *not* report verification failure: `subprocess.run` without
`check=True` never raises `CalledProcessError`, so the `except` clause is
dead and the spawn failure propagates as an uncaught `OSError`. -/
theorem verify_transfer_exit_and_crash :
    (∀ (c : Nat) (src dst : String),
      (verify_transfer (.exit c) src dst).2 = .ok (decide (c = 0))) ∧
    (∀ src dst : String, verify_transfer .spawnFail src dst = ([], .error "OSError")) :=
  ⟨fun _ _ _ => rfl, fun _ _ => rfl⟩

/-! ### Claim C10 -/

/-- **C10**: the fstab line checked for and appended is exactly
`<device> <mount_point> ext4 defaults 0 2` followed by a newline — the
filesystem type, option string and the two flags are the same constants for
every device and mount point; when the line is already a substring of the
content nothing changes, and otherwise exactly that line is appended. -/
theorem update_fstab_entry_format (drive mp : String) :
    fstabEntry drive mp =
      drive.data ++ ' ' :: (mp.data ++ (' ' :: "ext4 defaults 0 2\n".data)) ∧
    (∀ (content : List Char) (tee : ProcResult),
      containsSub (fstabEntry drive mp) content = true →
      (update_fstab drive mp tee content).2.1 = content) ∧
    (∀ content : List Char,
      containsSub (fstabEntry drive mp) content = false →
      (update_fstab drive mp (.exit 0) content).2.1 = content ++ fstabEntry drive mp) := by
  refine ⟨?_, ?_, ?_⟩
  · show ((drive ++ " " ++ mp ++ " ext4 defaults 0 2\n")).data = _
    simp only [String.data_append]
    simp [List.append_assoc]
  · intro content tee h
    simp [update_fstab, h]
  · intro content h
    simp [update_fstab, h]

/-- **C10, witness**: appending to an empty mount table. -/
theorem update_fstab_entry_format_witness :
    (update_fstab "/dev/nvme0n1p1" "/mnt/temp" (.exit 0) []).2.1 =
      [] ++ fstabEntry "/dev/nvme0n1p1" "/mnt/temp" :=
  (update_fstab_entry_format "/dev/nvme0n1p1" "/mnt/temp").2.2 [] (by decide)

/-! ### Substring-occurrence lemmas for the fstab entry -/

/-- Bridge from the boolean test used by the code to the structural
relation. -/
theorem isPrefixOf_true_iff {l₁ l₂ : List Char} : l₁.isPrefixOf l₂ = true ↔ l₁ <+: l₂ :=
  List.isPrefixOf_iff_prefix

/-- A list beginning with `l₁` begins with exactly `l₁.length` of its
elements. -/
theorem eq_take_of_isPre {l₁ l₂ : List Char} (h : l₁ <+: l₂) : l₁ = l₂.take l₁.length :=
  List.prefix_iff_eq_take.mp h

/-- Every list begins with itself. -/
theorem listPre_refl (l : List Char) : l <+: l :=
  List.prefix_refl l

/-- A needle longer than the haystack never occurs. -/
theorem countOccs_eq_zero_of_short (pat : List Char) :
    ∀ s : List Char, s.length < pat.length → countOccs pat s = 0 := by
  intro s
  induction s with
  | nil =>
    intro h
    simp only [List.length_nil] at h
    have hnp : ¬ pat.isPrefixOf ([] : List Char) = true := by
      intro hp
      have hlen := (isPrefixOf_true_iff.mp hp).length_le
      simp only [List.length_nil, Nat.le_zero] at hlen
      omega
    simp [countOccs, hnp]
  | cons c cs ih =>
    intro h
    simp only [List.length_cons] at h
    have h1 : ¬ pat.isPrefixOf (c :: cs) = true := by
      intro hp
      have hlen := (isPrefixOf_true_iff.mp hp).length_le
      simp only [List.length_cons] at hlen
      omega
    have h2 := ih (by omega)
    simp [countOccs, h1, h2]

/-- A nonempty needle occurs exactly once in itself. -/
theorem countOccs_self (pat : List Char) (h : pat ≠ []) : countOccs pat pat = 1 := by
  cases pat with
  | nil => exact absurd rfl h
  | cons a as =>
    have h1 : (a :: as).isPrefixOf (a :: as) = true :=
      isPrefixOf_true_iff.mpr (listPre_refl _)
    have h2 : countOccs (a :: as) as = 0 :=
      countOccs_eq_zero_of_short _ as (by simp)
    simp [countOccs, h1, h2]

/-- A needle whose unique newline is its last character cannot begin inside
`d` and spill over into a copy of itself appended after `d`. -/
theorem entry_no_straddle (body : List Char) (hm : '\n' ∉ body)
    (d : List Char) (hd : d ≠ []) (hnp : ¬ (body ++ ['\n']) <+: d) :
    ¬ (body ++ ['\n']) <+: (d ++ (body ++ ['\n'])) := by
  intro hpre
  rcases le_or_lt (body ++ ['\n']).length d.length with hle | hlt
  · apply hnp
    have he := eq_take_of_isPre hpre
    rw [List.take_append_eq_append_take, Nat.sub_eq_zero_of_le hle, List.take_zero,
      List.append_nil] at he
    exact he ▸ ⟨d.drop (body ++ ['\n']).length, List.take_append_drop _ _⟩
  · have he := eq_take_of_isPre hpre
    rw [List.take_append_eq_append_take, List.take_of_length_le (Nat.le_of_lt hlt)] at he
    have hd1 : 1 ≤ d.length := by
      cases d with
      | nil => exact absurd rfl hd
      | cons _ _ => simp only [List.length_cons]; omega
    have hlen1 : (body ++ ['\n']).length = body.length + 1 := by
      simp
    have hk1 : 1 ≤ (body ++ ['\n']).length - d.length := by
      omega
    have hkle : (body ++ ['\n']).length - d.length ≤ body.length := by
      omega
    have ht : (body ++ ['\n']).take ((body ++ ['\n']).length - d.length) =
        body.take ((body ++ ['\n']).length - d.length) := by
      rw [List.take_append_eq_append_take, Nat.sub_eq_zero_of_le hkle, List.take_zero,
        List.append_nil]
    have htne : (body ++ ['\n']).take ((body ++ ['\n']).length - d.length) ≠ [] := by
      intro hnil
      rcases List.take_eq_nil_iff.mp hnil with h | h
      · omega
      · simp at h
    have hrev : ((body ++ ['\n']).take ((body ++ ['\n']).length - d.length)).reverse ++
        d.reverse = '\n' :: body.reverse := by
      have h2 : (d ++ (body ++ ['\n']).take ((body ++ ['\n']).length - d.length)).reverse =
          (body ++ ['\n']).reverse := by rw [← he]
      simpa [List.reverse_append] using h2
    have hnl : '\n' ∈ (body ++ ['\n']).take ((body ++ ['\n']).length - d.length) := by
      cases hx : ((body ++ ['\n']).take ((body ++ ['\n']).length - d.length)).reverse with
      | nil =>
        exact absurd (by simpa using congrArg List.reverse hx) htne
      | cons x xs =>
        rw [hx] at hrev
        rw [List.cons_append] at hrev
        have hx' : x = '\n' := (List.cons.injEq _ _ _ _ ▸ hrev).1
        have : '\n' ∈ ((body ++ ['\n']).take ((body ++ ['\n']).length - d.length)).reverse := by
          rw [hx, hx']
          exact List.mem_cons_self _ _
        exact List.mem_reverse.mp this
    have : '\n' ∈ body := List.take_subset _ _ (ht ▸ hnl)
    exact hm this

/-- Appending the entry to content with no occurrence of it yields exactly
one occurrence: no occurrence can straddle the append boundary. -/
theorem countOccs_append_self (body : List Char) (hm : '\n' ∉ body) :
    ∀ c : List Char, countOccs (body ++ ['\n']) c = 0 →
      countOccs (body ++ ['\n']) (c ++ (body ++ ['\n'])) = 1 := by
  intro c
  induction c with
  | nil =>
    intro _
    simpa using countOccs_self (body ++ ['\n']) (by simp)
  | cons x xs ih =>
    intro h0
    rw [countOccs] at h0
    have hnp : ¬ (body ++ ['\n']).isPrefixOf (x :: xs) = true := by
      intro hp
      rw [if_pos hp] at h0
      omega
    rw [if_neg hnp, Nat.zero_add] at h0
    have hnotp : ¬ (body ++ ['\n']) <+: (x :: xs) := fun hc =>
      hnp (isPrefixOf_true_iff.mpr hc)
    have hmid := entry_no_straddle body hm (x :: xs) (by simp) hnotp
    have hmid' : ¬ (body ++ ['\n']).isPrefixOf (x :: (xs ++ (body ++ ['\n']))) = true := by
      intro hp
      exact hmid (by simpa [List.cons_append] using isPrefixOf_true_iff.mp hp)
    rw [List.cons_append, countOccs, if_neg hmid', ih h0]

/-- `fstab_entry in content` is the same as the occurrence count being
positive. -/
theorem containsSub_iff_countOccs (pat : List Char) :
    ∀ s, containsSub pat s = true ↔ 0 < countOccs pat s := by
  intro s
  induction s with
  | nil =>
    by_cases hp : pat.isPrefixOf ([] : List Char) = true
    · simp [containsSub, countOccs, hp]
    · simp [containsSub, countOccs, hp]
  | cons c cs ih =>
    by_cases hp : pat.isPrefixOf (c :: cs) = true
    · simp [containsSub, countOccs, hp]
    · simp [containsSub, countOccs, hp, ih]

/-- A nonempty needle occurs in anything it is appended to. -/
theorem containsSub_append_self (pat : List Char) (hne : pat ≠ []) :
    ∀ c : List Char, containsSub pat (c ++ pat) = true := by
  intro c
  induction c with
  | nil =>
    cases pat with
    | nil => exact absurd rfl hne
    | cons a as =>
      have h1 : (a :: as).isPrefixOf (a :: as) = true :=
        isPrefixOf_true_iff.mpr (listPre_refl _)
      simp [containsSub, h1]
  | cons x xs ih =>
    rw [List.cons_append, containsSub, ih, Bool.or_true]


/-- The entry splits as a newline-free body followed by one newline. -/
theorem fstabEntry_eq_body (drive mp : String) :
    fstabEntry drive mp =
      (drive.data ++ ' ' :: (mp.data ++ (' ' :: "ext4 defaults 0 2".data))) ++ ['\n'] := by
  show ((drive ++ " " ++ mp ++ " ext4 defaults 0 2\n")).data = _
  simp only [String.data_append]
  simp [List.append_assoc]

/-- Realistic device and mount-point strings contain no newline, so neither
does the entry body. -/
theorem newline_not_mem_body (drive mp : String)
    (hd : '\n' ∉ drive.data) (hm : '\n' ∉ mp.data) :
    '\n' ∉ drive.data ++ ' ' :: (mp.data ++ (' ' :: "ext4 defaults 0 2".data)) := by
  intro h
  rcases List.mem_append.mp h with h1 | h1
  · exact hd h1
  · rcases List.mem_cons.mp h1 with h2 | h2
    · exact absurd h2 (by decide)
    · rcases List.mem_append.mp h2 with h3 | h3
      · exact hm h3
      · rcases List.mem_cons.mp h3 with h4 | h4
        · exact absurd h4 (by decide)
        · exact absurd h4 (by decide)

/-! ### Claim C6 -/

/-- **C6**: persistence is idempotent.  When the content already contains
the entry text nothing is appended; and starting from content with no
occurrence of the entry, running the update twice (with the append
succeeding) leaves exactly one occurrence of the entry in the content. -/
theorem update_fstab_idempotent (drive mp : String) (content : List Char)
    (tee : ProcResult) (hd : '\n' ∉ drive.data) (hm : '\n' ∉ mp.data) :
    (containsSub (fstabEntry drive mp) content = true →
      (update_fstab drive mp tee content).2.1 = content) ∧
    (countOccs (fstabEntry drive mp) content = 0 →
      countOccs (fstabEntry drive mp)
        ((update_fstab drive mp (.exit 0)
            ((update_fstab drive mp (.exit 0) content).2.1)).2.1) = 1) := by
  have hbody := fstabEntry_eq_body drive mp
  have hnl : '\n' ∉ drive.data ++ ' ' :: (mp.data ++ (' ' :: "ext4 defaults 0 2".data)) :=
    newline_not_mem_body drive mp hd hm
  constructor
  · intro h
    simp [update_fstab, h]
  · intro h0
    have hne : fstabEntry drive mp ≠ [] := by rw [hbody]; simp
    have hnc : containsSub (fstabEntry drive mp) content = false := by
      rcases Bool.eq_false_or_eq_true (containsSub (fstabEntry drive mp) content) with ht | hf
      · exfalso
        have := (containsSub_iff_countOccs _ content).mp ht
        omega
      · exact hf

    have hc1 : (update_fstab drive mp (.exit 0) content).2.1 =
        content ++ fstabEntry drive mp := by
      simp [update_fstab, hnc]
    have hcont : containsSub (fstabEntry drive mp) (content ++ fstabEntry drive mp) = true :=
      containsSub_append_self (fstabEntry drive mp) hne content
    have hc2 : (update_fstab drive mp (.exit 0) (content ++ fstabEntry drive mp)).2.1 =
        content ++ fstabEntry drive mp := by
      simp [update_fstab, hcont]
    rw [hc1, hc2, hbody]
    apply countOccs_append_self _ hnl content
    rw [← hbody]
    exact h0

/-- **C6, witness**: two updates on an initially empty mount table leave one
occurrence of the entry. -/
theorem update_fstab_idempotent_witness :
    countOccs (fstabEntry "/dev/nvme0n1p1" "/mnt/temp")
      ((update_fstab "/dev/nvme0n1p1" "/mnt/temp" (.exit 0)
          ((update_fstab "/dev/nvme0n1p1" "/mnt/temp" (.exit 0) []).2.1)).2.1) = 1 :=
  (update_fstab_idempotent "/dev/nvme0n1p1" "/mnt/temp" [] (.exit 0)
    (by decide) (by decide)).2 (by decide)

/-! ### Claim C8 -/

/-- An environment in which `/home/a` fails verification with a *reported*
difference (`diff` exits 1) while `/home/b` succeeds end to end. -/
def sysIsol : Sys where
  rootUsage := some (500 * 1024 * 1024, 100 * 1024 * 1024, 400 * 1024 * 1024)
  mkdirOk := true
  mountRes := .exit 0
  dryRes := fun _ => .exit 0
  realRes := fun _ => .exit 0
  diffRes := fun d => if d = "/home/a" then .exit 1 else .exit 0
  symlinkOk := fun _ => true
  fstabContent := []
  teeRes := .exit 0

/-- The same environment except `/home/a`'s `diff` cannot be spawned at all
(`subprocess.run` raises `OSError`). -/
def sysCrash : Sys :=
  { sysIsol with diffRes := fun d => if d = "/home/a" then .spawnFail else .exit 0 }

/-- **C8**: per-directory isolation holds for *reported* failures — with
`/home/a` failing verification by exit code, `/home/b` is still processed —
but not in general: when `/home/a`'s comparison cannot be spawned, the
uncaught `OSError` aborts the loop and `/home/b` is never processed. -/
theorem per_directory_isolation_and_crash :
    (processLoop sysIsol "/mnt/temp" ["/home/a", "/home/b"]).2 =
      .ok [("/home/a", false), ("/home/b", true)] ∧
    (processLoop sysCrash "/mnt/temp" ["/home/a", "/home/b"]).2 = .error "OSError" := by
  constructor <;>
    simp [processLoop, processOne, sysIsol, sysCrash, transfer_directory, verify_transfer,
      baseName, Except.map]

/-! ### Event-trace lemmas -/

/-- Marks the disk-usage queries among the events of a run. -/
def isUsage : Event → Bool
  | .usageCheck _ => true
  | _ => false

/-- Mounting queries no disk usage. -/
theorem mount_drive_no_usage (mk : Bool) (mr : ProcResult) (d mp : String) :
    ∀ e ∈ (mount_drive mk mr d mp).1, isUsage e = false := by
  cases mk with
  | false => simp [mount_drive, verify_mount_point, isUsage]
  | true =>
    cases mr with
    | spawnFail => simp [mount_drive, verify_mount_point, isUsage]
    | exit c => cases c <;> simp [mount_drive, verify_mount_point, isUsage]

/-- The mount step always begins by creating the mount point directory. -/
theorem mount_drive_head (mk : Bool) (mr : ProcResult) (d mp : String) :
    ∃ tl, (mount_drive mk mr d mp).1 = .mkdirp mp :: tl := by
  cases mk with
  | false => exact ⟨[], rfl⟩
  | true =>
    cases mr with
    | spawnFail => exact ⟨[], rfl⟩
    | exit c =>
      cases c with
      | zero => exact ⟨[.mountCmd d mp], rfl⟩
      | succ n => exact ⟨[.mountCmd d mp], rfl⟩

/-- Transferring queries no disk usage. -/
theorem transfer_directory_no_usage (dry real : ProcResult) (src dst : String) :
    ∀ e ∈ (transfer_directory dry real src dst).1, isUsage e = false := by
  cases dry with
  | spawnFail => simp [transfer_directory]
  | exit c =>
    cases c with
    | zero =>
      cases real with
      | spawnFail => simp [transfer_directory, isUsage]
      | exit c2 => cases c2 <;> simp [transfer_directory, isUsage]
    | succ n => simp [transfer_directory, isUsage]

/-- Verification queries no disk usage. -/
theorem verify_transfer_no_usage (diff : ProcResult) (src dst : String) :
    ∀ e ∈ (verify_transfer diff src dst).1, isUsage e = false := by
  cases diff <;> simp [verify_transfer, isUsage]

/-- One loop iteration queries no disk usage. -/
theorem processOne_no_usage (s : Sys) (mp d : String) :
    ∀ e ∈ (processOne s mp d).1, isUsage e = false := by
  have htd := transfer_directory_no_usage (s.dryRes d) (s.realRes d) d (mp ++ "/" ++ baseName d)
  have hvd := verify_transfer_no_usage (s.diffRes d) d (mp ++ "/" ++ baseName d)
  intro e he
  rw [processOne] at he
  rcases h1 : transfer_directory (s.dryRes d) (s.realRes d) d (mp ++ "/" ++ baseName d)
    with ⟨tev, tres⟩
  rw [h1] at he htd
  cases tres with
  | error m => exact htd e he
  | ok b =>
    cases b with
    | false => exact htd e he
    | true =>
      rcases h2 : verify_transfer (s.diffRes d) d (mp ++ "/" ++ baseName d) with ⟨vev, vres⟩
      rw [h2] at he hvd
      cases vres with
      | error m => rcases List.mem_append.mp he with h | h
                   · exact htd e h
                   · exact hvd e h
      | ok b2 =>
        cases b2 with
        | false =>
          rcases List.mem_append.mp he with h | h
          · exact htd e h
          · exact hvd e h
        | true =>
          rcases List.mem_append.mp he with h | h
          · rcases List.mem_append.mp h with h3 | h3
            · exact htd e h3
            · exact hvd e h3
          · rcases List.mem_cons.mp h with h3 | h3
            · rw [h3]; rfl
            · cases h3

/-- The whole per-directory loop queries no disk usage. -/
theorem processLoop_no_usage (s : Sys) (mp : String) :
    ∀ ds, ∀ e ∈ (processLoop s mp ds).1, isUsage e = false := by
  intro ds
  induction ds with
  | nil => simp [processLoop]
  | cons d ds ih =>
    intro e he
    rw [processLoop] at he
    have hp := processOne_no_usage s mp d
    rcases h1 : processOne s mp d with ⟨ev, res⟩
    rw [h1] at he hp
    cases res with
    | error m => exact hp e he
    | ok b =>
      rcases h2 : processLoop s mp ds with ⟨evs, rest⟩
      rw [h2] at he ih
      rcases List.mem_append.mp he with h | h
      · exact hp e h
      · exact ih e h

/-- Updating fstab queries no disk usage. -/
theorem update_fstab_no_usage (d mp : String) (tee : ProcResult) (c : List Char) :
    ∀ e ∈ (update_fstab d mp tee c).1, isUsage e = false := by
  intro e he
  by_cases hc : containsSub (fstabEntry d mp) c = true
  · simp [update_fstab, hc] at he
  · cases tee with
    | spawnFail => simp [update_fstab, hc] at he
    | exit n =>
      cases n with
      | zero =>
        simp [update_fstab, hc] at he
        rw [he]; rfl
      | succ m =>
        simp [update_fstab, hc] at he
        rw [he]; rfl

/-- A usage-free event list filters to nothing. -/
theorem filter_usage_nil {l : List Event} (h : ∀ e ∈ l, isUsage e = false) :
    l.filter isUsage = [] :=
  List.filter_eq_nil_iff.mpr (fun a ha => by simp [h a ha])

/-- Prepending the root usage query to a usage-free tail filters to exactly
that query. -/
theorem filter_usage_cons {l : List Event} (h : ∀ e ∈ l, isUsage e = false) :
    (Event.usageCheck "/" :: l).filter isUsage = [.usageCheck "/"] := by
  rw [List.filter_cons]
  simp only [isUsage, if_pos]
  rw [filter_usage_nil h]

/-- The whole post-check phase (mount, loop, fstab) queries no disk usage. -/
theorem mainMount_no_usage (s : Sys) (drive mp : String)
    (selected : List (String × Entry)) :
    ∀ e ∈ (mainMount s drive mp selected).1, isUsage e = false := by
  intro e he
  rw [mainMount] at he
  have hmu := mount_drive_no_usage s.mkdirOk s.mountRes drive mp
  rcases hm : mount_drive s.mkdirOk s.mountRes drive mp with ⟨mev, mres⟩
  rw [hm] at he hmu
  cases mres with
  | error m => exact hmu e he
  | ok b =>
    cases b with
    | false => exact hmu e he
    | true =>
      have hlu := processLoop_no_usage s mp (selected.map Prod.fst)
      rcases hl : processLoop s mp (selected.map Prod.fst) with ⟨lev, lres⟩
      rw [hl] at he hlu
      cases lres with
      | error m =>
        rcases List.mem_append.mp he with h | h
        · exact hmu e h
        · exact hlu e h
      | ok results =>
        have hfu := update_fstab_no_usage drive mp s.teeRes s.fstabContent
        rcases hf : update_fstab drive mp s.teeRes s.fstabContent with ⟨fev, nc, fok⟩
        rw [hf] at he hfu
        rcases List.mem_append.mp he with h | h
        · rcases List.mem_append.mp h with h2 | h2
          · exact hmu e h2
          · exact hlu e h2
        · exact hfu e h

/-- The post-check phase always starts by creating the mount point. -/
theorem mainMount_head (s : Sys) (drive mp : String)
    (selected : List (String × Entry)) :
    ∃ tl, (mainMount s drive mp selected).1 = .mkdirp mp :: tl := by
  obtain ⟨tl, htl⟩ := mount_drive_head s.mkdirOk s.mountRes drive mp
  rw [mainMount]
  rcases hm : mount_drive s.mkdirOk s.mountRes drive mp with ⟨mev, mres⟩
  rw [hm] at htl
  subst htl
  cases mres with
  | error m => exact ⟨tl, rfl⟩
  | ok b =>
    cases b with
    | false => exact ⟨tl, rfl⟩
    | true =>
      rcases processLoop s mp (selected.map Prod.fst) with ⟨lev, lres⟩
      cases lres with
      | error m => exact ⟨tl ++ lev, by simp⟩
      | ok results =>
        rcases update_fstab drive mp s.teeRes s.fstabContent with ⟨fev, nc, fok⟩
        exact ⟨tl ++ lev ++ fev, by simp⟩

/-! ### Claim C1 -/

/-- **C1**: a run that reaches the capacity check queries free space only at
`/` (the source filesystem) — every usage query in the whole trace is
`usageCheck "/"` — the required size is the sum of the approved directories'
sizes in KB; when it exceeds the available KB of `/` the run stops at once
(trace is just the usage query: no mkdir, no mount, no rsync), and when it
does not, the run proceeds to the mount step without any further usage
query. -/
theorem capacity_check_spec (s : Sys) (drive mp : String)
    (selected : List (String × Entry)) (t u f : Nat)
    (hus : s.rootUsage = some (t, u, f))
    (sized : List (String × Nat)) (hsz : collectSizes selected = some sized) :
    ((mainTail s drive mp selected).1.filter isUsage = [.usageCheck "/"]) ∧
    (f / 1024 < (sized.map Prod.snd).sum →
      mainTail s drive mp selected = ([.usageCheck "/"], .insufficient)) ∧
    ((sized.map Prod.snd).sum ≤ f / 1024 →
      ∃ evs, (mainTail s drive mp selected).1 = .usageCheck "/" :: .mkdirp mp :: evs) := by
  have hcd : check_disk_usage s.rootUsage = some (t / 1024, u / 1024, f / 1024) := by
    rw [hus]; rfl
  by_cases hcmp : f / 1024 < (sized.map Prod.snd).sum
  · have heq : mainTail s drive mp selected = ([.usageCheck "/"], .insufficient) := by
      simp only [mainTail, hcd, hsz]
      rw [if_pos hcmp]
    rw [heq]
    exact ⟨by simp [isUsage], fun _ => rfl, fun hle => absurd hcmp (by omega)⟩
  · have heq : mainTail s drive mp selected =
        (.usageCheck "/" :: (mainMount s drive mp selected).1,
          (mainMount s drive mp selected).2) := by
      simp only [mainTail, hcd, hsz]
      rw [if_neg hcmp]
    rw [heq]
    have hmu := mainMount_no_usage s drive mp selected
    obtain ⟨tl, htl⟩ := mainMount_head s drive mp selected
    exact ⟨filter_usage_cons hmu, fun hlt => absurd hlt hcmp,
      fun _ => ⟨tl, by rw [htl]⟩⟩

/-- An environment with 1024 bytes (1 KB) free at `/`. -/
def sysWit : Sys where
  rootUsage := some (10240, 8192, 1024)
  mkdirOk := true
  mountRes := .exit 0
  dryRes := fun _ => .exit 0
  realRes := fun _ => .exit 0
  diffRes := fun _ => .exit 0
  symlinkOk := fun _ => true
  fstabContent := []
  teeRes := .exit 0

/-- One approved directory holding 2048 bytes (2 KB). -/
def selWit : List (String × Entry) :=
  [("/home/big", .dir "big" true [.file "blob" 2048])]

/-- **C1, witness**: 2 KB required against 1 KB available — the run stops
right after the usage query. -/
theorem capacity_check_spec_witness :
    mainTail sysWit "/dev/nvme0n1p1" "/mnt/temp" selWit =
      ([.usageCheck "/"], .insufficient) :=
  (capacity_check_spec sysWit "/dev/nvme0n1p1" "/mnt/temp" selWit
    10240 8192 1024 rfl
    [("/home/big", 2)]
    (by simp [selWit, collectSizes, calculate_dir_size, entryBad, listBad,
      entryBytes, listBytes])).2.1 (by decide)

end Rebalance
